import Mathlib

/-!
Shallow embedding of the EQ2 Attendance Tracker (server.js): the SQLite
store (members, snapshots, presence), the sampling transaction, the
attendance aggregation and the summary payload, plus the two API handlers.
JavaScript numbers are modelled as Nat / Int / Rat; nullable values as
Option; the dayjs calendar library (an external collaborator) is modelled
by explicit civil-calendar arithmetic.
-/

namespace ElyBot

/-- Row of the members table (server.js lines 55-61):
user_id TEXT PRIMARY KEY, display_name TEXT, role TEXT DEFAULT Raider,
first_seen INTEGER, last_seen INTEGER. -/
structure Member where
  user_id : String
  display_name : String
  role : String
  first_seen : Int
  last_seen : Int
deriving DecidableEq

/-- Row of the snapshots table (server.js lines 63-68):
id INTEGER PRIMARY KEY AUTOINCREMENT, ts INTEGER (unix millis),
guild_id TEXT, channel_id TEXT. -/
structure Snapshot where
  id : Nat
  ts : Int
  guild_id : String
  channel_id : String
deriving DecidableEq

/-- Row of the presence table (server.js lines 70-75):
snapshot_id, user_id, PRIMARY KEY (snapshot_id, user_id). -/
structure PresenceRow where
  snapshot_id : Nat
  user_id : String
deriving DecidableEq

/-- The whole SQLite database state. Tables are lists of rows in insertion
order (SQLite scans in rowid order for these queries); nextSnapshotId is
the AUTOINCREMENT counter for snapshots.id. -/
structure Store where
  members : List Member
  snapshots : List Snapshot
  presence : List PresenceRow
  nextSnapshotId : Nat
deriving DecidableEq

/-- A freshly created attendance.db: all tables empty. -/
def emptyStore : Store := ⟨[], [], [], 0⟩

/-- One occupant of the voice channel as consumed by the sampler
(server.js lines 123-125): user id plus display name. -/
structure Occupant where
  userId : String
  displayName : String
deriving DecidableEq

/-- insertPresence (server.js line 79): INSERT OR IGNORE INTO presence.
The OR IGNORE clause makes the insert a no-op when the (snapshot_id,
user_id) primary key already exists. -/
def insertPresence (st : Store) (sid : Nat) (uid : String) : Store :=
  if st.presence.any (fun p => decide (p.snapshot_id = sid) && decide (p.user_id = uid)) then st
  else { st with presence := st.presence ++ [⟨sid, uid⟩] }

/-- upsertMember (server.js lines 80-86): INSERT ... ON CONFLICT(user_id)
DO UPDATE SET display_name=excluded.display_name, last_seen=excluded.last_seen.
The only call site passes role Raider, so COALESCE(@role, Raider) = Raider;
on conflict, role and first_seen are not touched. -/
def upsertMember (st : Store) (uid dn : String) (ts : Int) : Store :=
  if st.members.any (fun m => decide (m.user_id = uid)) then
    { st with members := st.members.map (fun m =>
        if m.user_id = uid then { m with display_name := dn, last_seen := ts } else m) }
  else
    { st with members := st.members ++ [⟨uid, dn, "Raider", ts, ts⟩] }

/-- Body of the per-occupant loop in the sampling transaction
(server.js lines 123-128): upsertMember.run then insertPresence.run. -/
def sampleStep (sid : Nat) (ts : Int) (st : Store) (o : Occupant) : Store :=
  insertPresence (upsertMember st o.userId o.displayName ts) sid o.userId

/-- Body of the db.transaction in sampleVoiceChannel (server.js lines
119-129): insertSnapshot (AUTOINCREMENT assigns nextSnapshotId, which
lastInsertRowid returns), then the occupant loop. -/
def snapshotBody (st : Store) (ts : Int) (guild channel : String) (occ : List Occupant) : Store :=
  let sid := st.nextSnapshotId
  let st1 : Store :=
    { st with snapshots := st.snapshots ++ [⟨sid, ts, guild, channel⟩],
              nextSnapshotId := sid + 1 }
  occ.foldl (sampleStep sid ts) st1

/-- Failure of the atomic write unit (StorageFailure in the spec): the
SQLite transaction throws and is rolled back. -/
inductive SampleError where
  | storageFailure
deriving DecidableEq

/-- recordSnapshot: the transaction invocation insert() at server.js line
131. The fail flag models whether the underlying write can complete; on
failure better-sqlite3 rolls the transaction back, so no new state is
produced. -/
def recordSnapshot (fail : Bool) (st : Store) (ts : Int) (guild channel : String)
    (occ : List Occupant) : Except SampleError Store :=
  if fail then .error .storageFailure else .ok (snapshotBody st ts guild channel occ)

/-- sampleVoiceChannel (server.js lines 106-136) at the store level: on a
transaction error the catch block logs it and the store is left as it was. -/
def sampleVoiceChannel (fail : Bool) (st : Store) (ts : Int) (guild channel : String)
    (occ : List Occupant) : Store × Option SampleError :=
  match recordSnapshot fail st ts guild channel occ with
  | .ok st2 => (st2, none)
  | .error e => (st, some e)

/-- Store states reachable from a fresh database by sampling cycles
(failed cycles leave the state unchanged, so only successful
recordSnapshot steps matter). -/
inductive Reachable : Store → Prop where
  | init : Reachable emptyStore
  | step (st : Store) (ts : Int) (guild channel : String) (occ : List Occupant) :
      Reachable st → Reachable (snapshotBody st ts guild channel occ)

/-- Internal consistency of the store, established by construction from a
fresh database: distinct snapshot ids all below the AUTOINCREMENT counter,
distinct presence primary keys referring below the counter, and distinct
member primary keys. -/
def StoreInv (st : Store) : Prop :=
  (st.snapshots.map Snapshot.id).Nodup ∧
  (∀ s ∈ st.snapshots, s.id < st.nextSnapshotId) ∧
  st.presence.Nodup ∧
  (∀ p ∈ st.presence, p.snapshot_id < st.nextSnapshotId) ∧
  (st.members.map Member.user_id).Nodup

instance storeInvDecidable (st : Store) : Decidable (StoreInv st) := by
  unfold StoreInv; infer_instance

/-- Occupant list with later duplicates (by userId) dropped, keeping the
first occurrence of each user, in order. -/
def dedupByUser : List Occupant → List Occupant
  | [] => []
  | o :: rest => o :: dedupByUser (rest.filter (fun q => decide (q.userId ≠ o.userId)))
termination_by l => l.length
decreasing_by
  simp only [List.length_cons]
  exact Nat.lt_succ_of_le (List.length_filter_le _ _)

/-- Digit value of an ASCII digit character. -/
def digitVal (c : Char) : Nat := c.toNat - 48

/-- Model of dayjs parsing of ym + "-01" in monthBounds / lastMonthYM
(server.js lines 151, 158): a strict YYYY-MM string yields its calendar
month; anything else is an Invalid Date (none). -/
def parseYM (s : String) : Option (Nat × Nat) :=
  match s.data with
  | [c1, c2, c3, c4, h, c5, c6] =>
    if c1.isDigit ∧ c2.isDigit ∧ c3.isDigit ∧ c4.isDigit ∧ h = '-' ∧ c5.isDigit ∧ c6.isDigit then
      let y := ((digitVal c1 * 10 + digitVal c2) * 10 + digitVal c3) * 10 + digitVal c4
      let m := digitVal c5 * 10 + digitVal c6
      if 1 ≤ m ∧ m ≤ 12 then some (y, m) else none
    else none
  | _ => none

/-- Zero-pad a month number to two digits (dayjs format MM). -/
def pad2 (n : Nat) : String := if n < 10 then "0" ++ toString n else toString n

/-- Zero-pad a year number to four digits (dayjs format YYYY). -/
def pad4 (n : Nat) : String :=
  if n < 10 then "000" ++ toString n
  else if n < 100 then "00" ++ toString n
  else if n < 1000 then "0" ++ toString n
  else toString n

/-- dayjs format YYYY-MM. -/
def formatYM (y m : Nat) : String := pad4 y ++ "-" ++ pad2 m

/-- Days from the civil epoch 1970-01-01 to year/month/day (proleptic
Gregorian calendar), the standard era-based formula; models the calendar
arithmetic dayjs performs. -/
def daysFromCivil (y m d : Int) : Int :=
  let yAdj : Int := if m ≤ 2 then y - 1 else y
  let era : Int := (if 0 ≤ yAdj then yAdj else yAdj - 399) / 400
  let yoe : Int := yAdj - era * 400
  let mp : Int := (m + 9) % 12
  let doy : Int := (153 * mp + 2) / 5 + d - 1
  let doe : Int := yoe * 365 + yoe / 4 - yoe / 100 + doy
  era * 146097 + doe - 719468

/-- Milliseconds in a day. -/
def msPerDay : Int := 86400000

/-- Unix millis of the first instant of a calendar month
(dayjs startOf month, valueOf). -/
def monthStartMs (y m : Nat) : Int := msPerDay * daysFromCivil (y : Int) (m : Int) 1

/-- The calendar month after (y, m). -/
def nextMonth (y m : Nat) : Nat × Nat := if m = 12 then (y + 1, 1) else (y, m + 1)

/-- monthBounds (server.js lines 149-155): start/end unix millis of the
month, endOf month being the last millisecond before the next month. An
unparseable ym gives an Invalid Date whose valueOf is NaN (none here);
NaN range bounds match no snapshot row. now is the clock's current
(year, month), used when ym is absent. -/
def monthBounds (ym : Option String) (now : Nat × Nat) : Option (Int × Int) :=
  let base : Option (Nat × Nat) :=
    match ym with
    | some s => parseYM s
    | none => some now
  match base with
  | some (y, m) =>
    let nx := nextMonth y m
    some (monthStartMs y m, monthStartMs nx.1 nx.2 - 1)
  | none => none

/-- lastMonthYM (server.js lines 157-160): dayjs(ym + "-01").subtract(1,
month).format(YYYY-MM), modelled through a months-since-year-zero count;
an Invalid Date formats as the string Invalid Date. -/
def lastMonthYM (ym : Option String) (now : Nat × Nat) : String :=
  let base : Option (Nat × Nat) :=
    match ym with
    | some s => parseYM s
    | none => some now
  match base with
  | some (y, m) =>
    let t := 12 * y + (m - 1) - 1
    formatYM (t / 12) (t % 12 + 1)
  | none => "Invalid Date"

/-- WHERE clause shared by the two range queries (server.js lines 162-174):
ts BETWEEN start AND end AND channel_id = ? AND guild_id = ?. A none range
(NaN bounds) matches nothing. -/
def snapInRange (b : Option (Int × Int)) (channel guild : String) (s : Snapshot) : Bool :=
  match b with
  | some (lo, hi) =>
    decide (lo ≤ s.ts) && decide (s.ts ≤ hi) &&
    decide (s.channel_id = channel) && decide (s.guild_id = guild)
  | none => false

/-- qTotalSnapshotsInRange (server.js lines 162-166): COUNT(*) of
snapshots in range for the configured channel and guild. -/
def qTotalSnapshotsInRange (st : Store) (b : Option (Int × Int)) (channel guild : String) : Nat :=
  (st.snapshots.filter (snapInRange b channel guild)).length

/-- qPresenceCountsInRange (server.js lines 168-174) for one user: the
COUNT(*) of join rows presence JOIN snapshots in range with that user_id.
The source groups by user and looks the user up in a Map with default 0;
per user that equals this join count (0 when the user has no rows). -/
def qPresenceCountInRange (st : Store) (b : Option (Int × Int)) (channel guild : String)
    (u : String) : Nat :=
  ((st.presence.filter (fun p => decide (p.user_id = u))).map
    (fun p => (st.snapshots.filter
      (fun s => decide (s.id = p.snapshot_id) && snapInRange b channel guild s)).length)).sum

/-- Result of computeAttendance (server.js lines 178-184): total snapshot
count plus the per-member present map (Map lookup with default 0). -/
structure Attendance where
  total : Nat
  presentMap : String → Nat

/-- computeAttendance (server.js lines 178-184). -/
def computeAttendance (st : Store) (channel guild : String) (ym : String)
    (now : Nat × Nat) : Attendance :=
  let b := monthBounds (some ym) now
  { total := qTotalSnapshotsInRange st b channel guild,
    presentMap := fun u => qPresenceCountInRange st b channel guild u }

/-- thisMonth / lastMonth cell of a summary row (server.js lines 204-205). -/
structure MonthCell where
  ym : String
  present : Nat
  total : Nat
  pct : Option ℚ
deriving DecidableEq

/-- flags of a summary row (server.js lines 206-209). -/
structure Flags where
  under50 : Bool
  under75 : Bool
deriving DecidableEq

/-- One row of the summary payload (server.js lines 200-210). -/
structure Row where
  userId : String
  name : String
  role : String
  thisMonth : MonthCell
  lastMonth : MonthCell
  flags : Flags
deriving DecidableEq

/-- totals of the summary payload (server.js line 219). -/
structure Totals where
  thisMonth : Nat
  lastMonth : Nat
deriving DecidableEq

/-- The summary payload document (server.js lines 216-223). -/
structure Payload where
  ym : String
  ymPrev : String
  totals : Totals
  rows : List Row
  below50 : List String
  below75 : List String
deriving DecidableEq

/-- Sort key of the comparator at server.js line 214: pct of this month
with null coalesced to -1 (b.thisMonth.pct ?? -1). -/
def pctKey (r : Row) : ℚ := r.thisMonth.pct.getD (-1)

/-- The comparator (a,b) => (b.thisMonth.pct ?? -1) - (a.thisMonth.pct ?? -1)
sorts ascending in the comparator value, i.e. descending in the key; a
stays before b exactly when key a >= key b. JS sort is stable, as is
mergeSort. -/
def rowLE (a b : Row) : Bool := decide (pctKey b ≤ pctKey a)

/-- Construction of one summary row (server.js lines 195-211): present
counts default to 0, pct is null when the month total is 0 (JS falsy),
name and role fall back over JS falsy empty strings, and the threshold
flags require pct to be non-null. -/
def mkRow (ym ymPrev : String) (tThis tLast : Nat) (pThis pLast : String → Nat)
    (m : Member) : Row :=
  let presentThis := pThis m.user_id
  let presentLast := pLast m.user_id
  let pctThis : Option ℚ := if tThis ≠ 0 then some ((presentThis : ℚ) / (tThis : ℚ)) else none
  let pctLast : Option ℚ := if tLast ≠ 0 then some ((presentLast : ℚ) / (tLast : ℚ)) else none
  { userId := m.user_id,
    name := if m.display_name = "" then m.user_id else m.display_name,
    role := if m.role = "" then "Raider" else m.role,
    thisMonth := ⟨ym, presentThis, tThis, pctThis⟩,
    lastMonth := ⟨ymPrev, presentLast, tLast, pctLast⟩,
    flags := ⟨(match pctThis with | some q => decide (q < 1/2) | none => false),
              (match pctThis with | some q => decide (q < 3/4) | none => false)⟩ }

/-- summaryPayload (server.js lines 186-224). now is the clock's current
(year, month) for the dayjs() defaults. -/
def summaryPayload (guild channel : String) (st : Store) (ymCurrent : Option String)
    (now : Nat × Nat) : Payload :=
  let ym := ymCurrent.getD (formatYM now.1 now.2)
  let ymPrev := lastMonthYM (some ym) now
  let thisMonth := computeAttendance st channel guild ym now
  let lastMonth := computeAttendance st channel guild ymPrev now
  let rowsUnsorted := st.members.map
    (mkRow ym ymPrev thisMonth.total lastMonth.total thisMonth.presentMap lastMonth.presentMap)
  let rows := rowsUnsorted.mergeSort rowLE
  { ym := ym,
    ymPrev := ymPrev,
    totals := ⟨thisMonth.total, lastMonth.total⟩,
    rows := rows,
    below50 := (rows.filter (fun r => r.flags.under50)).map (fun r => r.name),
    below75 := (rows.filter (fun r => r.flags.under75 && !r.flags.under50)).map (fun r => r.name) }

/-- JS whitespace test for String.prototype.trim (space, tab, newline,
carriage return cover the values occurring in query strings). -/
def jsWhitespace (c : Char) : Bool :=
  decide (c = ' ') || decide (c = '\t') || decide (c = '\n') || decide (c = '\r')

/-- Model of the JS builtin String.prototype.trim: drop whitespace from
both ends. -/
def jsTrim (s : String) : String :=
  ⟨((s.data.dropWhile jsWhitespace).reverse.dropWhile jsWhitespace).reverse⟩

/-- Normalisation of the month query parameter (server.js line 237):
(req.query.month || "").toString().trim() || undefined. An absent, empty
or whitespace-only value becomes undefined; any other value is passed
through trimmed. -/
def normalizeMonthParam (month : Option String) : Option String :=
  let t := jsTrim (month.getD "")
  if t = "" then none else some t

/-- GET /api/summary handler (server.js lines 236-240). -/
def apiSummary (guild channel : String) (st : Store) (month : Option String)
    (now : Nat × Nat) : Payload :=
  summaryPayload guild channel st (normalizeMonthParam month) now

/-- Response of POST /api/members/role: 400 with an error message, or
200 with ok true. -/
inductive RoleResp where
  | badRequest (msg : String)
  | okTrue
deriving DecidableEq

/-- The UPDATE members SET role=? WHERE user_id=? statement
(server.js line 248). -/
def roleUpdate (st : Store) (uid rl : String) : Store :=
  { st with members := st.members.map (fun m =>
      if m.user_id = uid then { m with role := rl } else m) }

/-- POST /api/members/role handler (server.js lines 243-250): body fields
are JS-falsy when absent or empty; role must be Raider or Reserve; an
accepted request runs the UPDATE (matching zero or one row) and answers
ok true regardless of whether the member exists. -/
def apiSetRole (st : Store) (body : Option (Option String × Option String)) :
    RoleResp × Store :=
  let fields := body.getD (none, none)
  match fields with
  | (some uid, some rl) =>
    if uid ≠ "" ∧ rl ≠ "" ∧ (rl = "Raider" ∨ rl = "Reserve") then
      (RoleResp.okTrue, roleUpdate st uid rl)
    else
      (RoleResp.badRequest "Provide userId and role in \x7bRaider, Reserve\x7d", st)
  | _ => (RoleResp.badRequest "Provide userId and role in \x7bRaider, Reserve\x7d", st)

end ElyBot

namespace ElyBot

theorem insertPresence_members (st : Store) (sid : Nat) (uid : String) :
    (insertPresence st sid uid).members = st.members := by
  unfold insertPresence; split <;> rfl

theorem insertPresence_snapshots (st : Store) (sid : Nat) (uid : String) :
    (insertPresence st sid uid).snapshots = st.snapshots := by
  unfold insertPresence; split <;> rfl

theorem insertPresence_nextId (st : Store) (sid : Nat) (uid : String) :
    (insertPresence st sid uid).nextSnapshotId = st.nextSnapshotId := by
  unfold insertPresence; split <;> rfl

theorem upsertMember_snapshots (st : Store) (uid dn : String) (ts : Int) :
    (upsertMember st uid dn ts).snapshots = st.snapshots := by
  unfold upsertMember; split <;> rfl

theorem upsertMember_presence (st : Store) (uid dn : String) (ts : Int) :
    (upsertMember st uid dn ts).presence = st.presence := by
  unfold upsertMember; split <;> rfl

theorem upsertMember_nextId (st : Store) (uid dn : String) (ts : Int) :
    (upsertMember st uid dn ts).nextSnapshotId = st.nextSnapshotId := by
  unfold upsertMember; split <;> rfl

theorem sampleStep_snapshots (sid : Nat) (ts : Int) (st : Store) (o : Occupant) :
    (sampleStep sid ts st o).snapshots = st.snapshots := by
  unfold sampleStep; rw [insertPresence_snapshots, upsertMember_snapshots]

theorem sampleStep_nextId (sid : Nat) (ts : Int) (st : Store) (o : Occupant) :
    (sampleStep sid ts st o).nextSnapshotId = st.nextSnapshotId := by
  unfold sampleStep; rw [insertPresence_nextId, upsertMember_nextId]

theorem foldl_sampleStep_snapshots (sid : Nat) (ts : Int) :
    ∀ (occ : List Occupant) (st : Store),
      (occ.foldl (sampleStep sid ts) st).snapshots = st.snapshots := by
  intro occ
  induction occ with
  | nil => intro st; rfl
  | cons o rest ih =>
    intro st
    simp only [List.foldl_cons]
    rw [ih, sampleStep_snapshots]

theorem foldl_sampleStep_nextId (sid : Nat) (ts : Int) :
    ∀ (occ : List Occupant) (st : Store),
      (occ.foldl (sampleStep sid ts) st).nextSnapshotId = st.nextSnapshotId := by
  intro occ
  induction occ with
  | nil => intro st; rfl
  | cons o rest ih =>
    intro st
    simp only [List.foldl_cons]
    rw [ih, sampleStep_nextId]

theorem insertPresence_presence_mem (st : Store) (sid : Nat) (uid : String) (p : PresenceRow) :
    p ∈ (insertPresence st sid uid).presence ↔ p ∈ st.presence ∨ p = ⟨sid, uid⟩ := by
  unfold insertPresence
  split
  · rename_i hany
    constructor
    · exact Or.inl
    · rintro (h | rfl)
      · exact h
      · rcases List.any_eq_true.mp hany with ⟨q, hq, hq2⟩
        have h1 : q.snapshot_id = sid ∧ q.user_id = uid := by
          simpa using hq2
        have : q = (⟨sid, uid⟩ : PresenceRow) := by
          cases q; simp_all
        rwa [← this]
  · simp [List.mem_append]

theorem insertPresence_presence_nodup (st : Store) (sid : Nat) (uid : String)
    (h : st.presence.Nodup) : (insertPresence st sid uid).presence.Nodup := by
  unfold insertPresence
  split
  · exact h
  · rename_i hany
    have hnot : (⟨sid, uid⟩ : PresenceRow) ∉ st.presence := by
      intro hmem
      exact hany (List.any_eq_true.mpr ⟨⟨sid, uid⟩, hmem, by simp⟩)
    simp [List.nodup_append, h, List.disjoint_singleton, hnot]

theorem sampleStep_presence_mem (sid : Nat) (ts : Int) (st : Store) (o : Occupant)
    (p : PresenceRow) :
    p ∈ (sampleStep sid ts st o).presence ↔ p ∈ st.presence ∨ p = ⟨sid, o.userId⟩ := by
  unfold sampleStep
  rw [insertPresence_presence_mem, upsertMember_presence]

theorem sampleStep_presence_nodup (sid : Nat) (ts : Int) (st : Store) (o : Occupant)
    (h : st.presence.Nodup) : (sampleStep sid ts st o).presence.Nodup := by
  unfold sampleStep
  apply insertPresence_presence_nodup
  rwa [upsertMember_presence]

theorem foldl_sampleStep_presence_mem (sid : Nat) (ts : Int) :
    ∀ (occ : List Occupant) (st : Store) (p : PresenceRow),
      p ∈ (occ.foldl (sampleStep sid ts) st).presence ↔
        p ∈ st.presence ∨ ∃ o ∈ occ, p = ⟨sid, o.userId⟩ := by
  intro occ
  induction occ with
  | nil => intro st p; simp
  | cons o rest ih =>
    intro st p
    simp only [List.foldl_cons]
    rw [ih, sampleStep_presence_mem]
    simp only [List.mem_cons]
    constructor
    · rintro ((h | h) | ⟨q, hq, hpq⟩)
      · exact Or.inl h
      · exact Or.inr ⟨o, Or.inl rfl, h⟩
      · exact Or.inr ⟨q, Or.inr hq, hpq⟩
    · rintro (h | ⟨q, (rfl | hq), hpq⟩)
      · exact Or.inl (Or.inl h)
      · exact Or.inl (Or.inr hpq)
      · exact Or.inr ⟨q, hq, hpq⟩

theorem foldl_sampleStep_presence_nodup (sid : Nat) (ts : Int) :
    ∀ (occ : List Occupant) (st : Store), st.presence.Nodup →
      (occ.foldl (sampleStep sid ts) st).presence.Nodup := by
  intro occ
  induction occ with
  | nil => intro st h; exact h
  | cons o rest ih =>
    intro st h
    simp only [List.foldl_cons]
    exact ih _ (sampleStep_presence_nodup _ _ _ _ h)

end ElyBot

namespace ElyBot

/-- A member row for uid with the display name and last_seen written by the
current cycle exists; together with the presence row of the cycle this is
what one loop iteration for an occupant guarantees. -/
def memberWritten (st : Store) (uid dn : String) (ts : Int) : Prop :=
  ∃ m ∈ st.members, m.user_id = uid ∧ m.display_name = dn ∧ m.last_seen = ts

theorem upsertMember_written (st : Store) (uid dn : String) (ts : Int) :
    memberWritten (upsertMember st uid dn ts) uid dn ts := by
  unfold upsertMember
  split
  · rename_i hany
    rcases List.any_eq_true.mp hany with ⟨m, hm, hmu⟩
    have hmu2 : m.user_id = uid := by simpa using hmu
    refine ⟨{ m with display_name := dn, last_seen := ts }, ?_, by simp [hmu2]⟩
    have := List.mem_map_of_mem
      (fun m => if m.user_id = uid then { m with display_name := dn, last_seen := ts } else m) hm
    simpa [hmu2] using this
  · exact ⟨⟨uid, dn, "Raider", ts, ts⟩, by simp, by simp⟩

theorem upsertMember_written_pres (st : Store) (uid dn u2 d2 : String) (ts : Int)
    (hp : memberWritten st uid dn ts) (hcons : u2 = uid → d2 = dn) :
    memberWritten (upsertMember st u2 d2 ts) uid dn ts := by
  rcases hp with ⟨m, hm, h1, h2, h3⟩
  unfold upsertMember
  split
  · refine ⟨if m.user_id = u2 then { m with display_name := d2, last_seen := ts } else m,
      List.mem_map_of_mem _ hm, ?_⟩
    by_cases hc : m.user_id = u2
    · have hd2 : d2 = dn := hcons (by rw [← hc, h1])
      rw [if_pos hc]
      exact ⟨h1, hd2, rfl⟩
    · rw [if_neg hc]
      exact ⟨h1, h2, h3⟩
  · exact ⟨m, List.mem_append_left _ hm, h1, h2, h3⟩

theorem sampleStep_written_pres (sid : Nat) (ts : Int) (st : Store) (uid dn : String)
    (o : Occupant) (hp : memberWritten st uid dn ts)
    (hcons : o.userId = uid → o.displayName = dn) :
    memberWritten (sampleStep sid ts st o) uid dn ts := by
  unfold sampleStep
  rcases upsertMember_written_pres st uid dn o.userId o.displayName ts hp hcons with ⟨m, hm, hf⟩
  exact ⟨m, by rwa [insertPresence_members], hf⟩

theorem sampleStep_written (sid : Nat) (ts : Int) (st : Store) (o : Occupant) :
    memberWritten (sampleStep sid ts st o) o.userId o.displayName ts := by
  unfold sampleStep
  rcases upsertMember_written st o.userId o.displayName ts with ⟨m, hm, hf⟩
  exact ⟨m, by rwa [insertPresence_members], hf⟩

theorem upsertMember_userIds_nodup (st : Store) (uid dn : String) (ts : Int)
    (h : (st.members.map Member.user_id).Nodup) :
    ((upsertMember st uid dn ts).members.map Member.user_id).Nodup := by
  unfold upsertMember
  split
  · have heq : (st.members.map (fun m =>
        if m.user_id = uid then { m with display_name := dn, last_seen := ts } else m)).map
          Member.user_id = st.members.map Member.user_id := by
      rw [List.map_map]
      apply List.map_congr_left
      intro m _
      by_cases hc : m.user_id = uid <;> simp [Function.comp, hc]
    simpa [heq]
  · rename_i hany
    have hnot : uid ∉ st.members.map Member.user_id := by
      intro hmem
      rcases List.mem_map.mp hmem with ⟨m, hm, hum⟩
      exact hany (List.any_eq_true.mpr ⟨m, hm, by simp [hum]⟩)
    simp [List.nodup_append, h, hnot, List.disjoint_singleton]

theorem sampleStep_userIds_nodup (sid : Nat) (ts : Int) (st : Store) (o : Occupant)
    (h : (st.members.map Member.user_id).Nodup) :
    ((sampleStep sid ts st o).members.map Member.user_id).Nodup := by
  unfold sampleStep
  rw [insertPresence_members]
  exact upsertMember_userIds_nodup _ _ _ _ h

theorem member_update_self (m : Member) :
    ({ m with display_name := m.display_name, last_seen := m.last_seen } : Member) = m := rfl

theorem sampleStep_identity (sid : Nat) (ts : Int) (st : Store) (uid dn : String) (o : Occupant)
    (hnd : (st.members.map Member.user_id).Nodup)
    (hmem : memberWritten st uid dn ts)
    (hpres : (⟨sid, uid⟩ : PresenceRow) ∈ st.presence)
    (hu : o.userId = uid) (hd : o.displayName = dn) :
    sampleStep sid ts st o = st := by
  unfold sampleStep
  rcases hmem with ⟨m0, hm0, e1, e2, e3⟩
  have hup : upsertMember st o.userId o.displayName ts = st := by
    unfold upsertMember
    rw [if_pos (List.any_eq_true.mpr ⟨m0, hm0, by simp [e1, hu]⟩)]
    have hid : st.members.map (fun m =>
        if m.user_id = o.userId then { m with display_name := o.displayName, last_seen := ts }
        else m) = st.members := by
      have : ∀ m ∈ st.members, (if m.user_id = o.userId then
          { m with display_name := o.displayName, last_seen := ts } else m) = m := by
        intro m hm
        by_cases hc : m.user_id = o.userId
        · have hmm0 : m = m0 :=
            List.inj_on_of_nodup_map hnd hm hm0 (by rw [hc, hu, e1])
          subst hmm0
          rw [if_pos hc]
          cases m with
          | mk a b c d e => simp_all
        · simp [hc]
      rw [List.map_congr_left this]
      simp
    rw [hid]
  rw [hup]
  unfold insertPresence
  rw [if_pos (List.any_eq_true.mpr ⟨⟨sid, uid⟩, hpres, by simp [hu]⟩)]

theorem insertPresence_pres_mem (st : Store) (sid : Nat) (uid : String) (p : PresenceRow)
    (h : p ∈ st.presence) : p ∈ (insertPresence st sid uid).presence :=
  (insertPresence_presence_mem st sid uid p).mpr (Or.inl h)

theorem sampleStep_pres_mem (sid : Nat) (ts : Int) (st : Store) (o : Occupant) (p : PresenceRow)
    (h : p ∈ st.presence) : p ∈ (sampleStep sid ts st o).presence :=
  (sampleStep_presence_mem sid ts st o p).mpr (Or.inl h)

end ElyBot

namespace ElyBot

theorem foldl_sampleStep_userIds_nodup (sid : Nat) (ts : Int) :
    ∀ (occ : List Occupant) (st : Store), (st.members.map Member.user_id).Nodup →
      ((occ.foldl (sampleStep sid ts) st).members.map Member.user_id).Nodup := by
  intro occ
  induction occ with
  | nil => intro st h; exact h
  | cons o rest ih =>
    intro st h
    simp only [List.foldl_cons]
    exact ih _ (sampleStep_userIds_nodup _ _ _ _ h)

theorem snapshotBody_snapshots (st : Store) (ts : Int) (g c : String) (occ : List Occupant) :
    (snapshotBody st ts g c occ).snapshots
      = st.snapshots ++ [⟨st.nextSnapshotId, ts, g, c⟩] := by
  simp only [snapshotBody]
  rw [foldl_sampleStep_snapshots]

theorem snapshotBody_nextId (st : Store) (ts : Int) (g c : String) (occ : List Occupant) :
    (snapshotBody st ts g c occ).nextSnapshotId = st.nextSnapshotId + 1 := by
  simp only [snapshotBody]
  rw [foldl_sampleStep_nextId]

theorem snapshotBody_presence_mem (st : Store) (ts : Int) (g c : String) (occ : List Occupant)
    (p : PresenceRow) :
    p ∈ (snapshotBody st ts g c occ).presence ↔
      p ∈ st.presence ∨ ∃ o ∈ occ, p = ⟨st.nextSnapshotId, o.userId⟩ := by
  simp only [snapshotBody]
  rw [foldl_sampleStep_presence_mem]

theorem snapshotBody_presence_nodup (st : Store) (ts : Int) (g c : String) (occ : List Occupant)
    (h : st.presence.Nodup) : (snapshotBody st ts g c occ).presence.Nodup := by
  simp only [snapshotBody]
  exact foldl_sampleStep_presence_nodup _ _ _ _ h

theorem snapshotBody_userIds_nodup (st : Store) (ts : Int) (g c : String) (occ : List Occupant)
    (h : (st.members.map Member.user_id).Nodup) :
    ((snapshotBody st ts g c occ).members.map Member.user_id).Nodup := by
  simp only [snapshotBody]
  exact foldl_sampleStep_userIds_nodup _ _ _ _ h

theorem snapshotBody_inv (st : Store) (ts : Int) (g c : String) (occ : List Occupant)
    (h : StoreInv st) : StoreInv (snapshotBody st ts g c occ) := by
  obtain ⟨h1, h2, h3, h4, h5⟩ := h
  refine ⟨?_, ?_, ?_, ?_, ?_⟩
  · rw [snapshotBody_snapshots]
    have hfresh : st.nextSnapshotId ∉ st.snapshots.map Snapshot.id := by
      intro hmem
      rcases List.mem_map.mp hmem with ⟨s, hs, hid⟩
      exact absurd hid (Nat.ne_of_lt (h2 s hs))
    simp [List.nodup_append, h1, hfresh, List.disjoint_singleton]
  · rw [snapshotBody_snapshots, snapshotBody_nextId]
    intro s hs
    rcases List.mem_append.mp hs with hs | hs
    · exact Nat.lt_succ_of_lt (h2 s hs)
    · simp at hs
      subst hs
      exact Nat.lt_succ_self _
  · exact snapshotBody_presence_nodup _ _ _ _ _ h3
  · intro p hp
    rw [snapshotBody_nextId]
    rcases (snapshotBody_presence_mem st ts g c occ p).mp hp with hp | ⟨o, _, rfl⟩
    · exact Nat.lt_succ_of_lt (h4 p hp)
    · exact Nat.lt_succ_self _
  · exact snapshotBody_userIds_nodup _ _ _ _ _ h5

theorem reachable_inv (st : Store) (h : Reachable st) : StoreInv st := by
  induction h with
  | init => decide
  | step st ts g c occ _ ih => exact snapshotBody_inv st ts g c occ ih

theorem sum_count_le : ∀ (sids : List Nat), sids.Nodup → ∀ (L : List Nat),
    (sids.map (fun x => L.count x)).sum ≤ L.length := by
  intro sids
  induction sids with
  | nil => intro _ L; simp
  | cons a rest ih =>
    intro hnd L
    obtain ⟨ha, hrest⟩ := List.nodup_cons.mp hnd
    simp only [List.map_cons, List.sum_cons]
    have hcongr : rest.map (fun x => L.count x)
        = rest.map (fun x => (L.filter (fun y => decide (y ≠ a))).count x) := by
      apply List.map_congr_left
      intro b hb
      have hba : b ≠ a := by rintro rfl; exact ha hb
      rw [List.count_filter (by simpa using hba)]
    rw [hcongr]
    have hih := ih hrest (L.filter (fun y => decide (y ≠ a)))
    have hlen : L.count a + (L.filter (fun y => decide (y ≠ a))).length = L.length := by
      rw [List.count_eq_countP, ← List.countP_eq_length_filter]
      have hsplit := List.length_eq_countP_add_countP (fun x => x == a) L
      have hcp : L.countP (fun y => decide (y ≠ a))
          = L.countP (fun x => decide ¬((x == a) = true)) := by
        apply List.countP_congr
        intro x _
        simp
      omega
    omega

theorem count_ids (l : List Snapshot) (x : Nat) :
    (l.filter (fun s => decide (s.id = x))).length = (l.map Snapshot.id).count x := by
  induction l with
  | nil => simp
  | cons s t ih =>
    by_cases h : s.id = x <;>
      simp [List.filter_cons, List.count_cons, h, ih]

theorem presence_le_total (st : Store) (hnd : st.presence.Nodup) (b : Option (Int × Int))
    (channel guild u : String) :
    qPresenceCountInRange st b channel guild u ≤ qTotalSnapshotsInRange st b channel guild := by
  unfold qPresenceCountInRange qTotalSnapshotsInRange
  have hinner : ∀ p : PresenceRow,
      (st.snapshots.filter
          (fun s => decide (s.id = p.snapshot_id) && snapInRange b channel guild s)).length
        = ((st.snapshots.filter (snapInRange b channel guild)).map Snapshot.id).count
            p.snapshot_id := by
    intro p
    rw [← count_ids]
    congr 1
    rw [List.filter_filter]
  rw [List.map_congr_left (fun p _ => hinner p)]
  rw [show (fun p : PresenceRow =>
        ((st.snapshots.filter (snapInRange b channel guild)).map Snapshot.id).count p.snapshot_id)
      = (fun x : Nat =>
          ((st.snapshots.filter (snapInRange b channel guild)).map Snapshot.id).count x)
        ∘ PresenceRow.snapshot_id from rfl]
  rw [← List.map_map]
  have hsids : (((st.presence.filter (fun p => decide (p.user_id = u))).map
      PresenceRow.snapshot_id)).Nodup := by
    apply List.Nodup.map_on
    · intro p hp q hq hpq
      have hpu : p.user_id = u := by simpa using (List.mem_filter.mp hp).2
      have hqu : q.user_id = u := by simpa using (List.mem_filter.mp hq).2
      cases p; cases q; simp_all
    · exact hnd.filter _
  have hle := sum_count_le _ hsids
    ((st.snapshots.filter (snapInRange b channel guild)).map Snapshot.id)
  simpa [List.length_map] using hle

end ElyBot

namespace ElyBot

/-- Positional frame relation between member tables: every pre-existing
row keeps its position, user_id, role and first_seen (only display_name
and last_seen may change), and rows are only appended. -/
def framePreserved (l l2 : List Member) : Prop :=
  l.length ≤ l2.length ∧
  ∀ (i : Nat) (h : i < l.length) (h2 : i < l2.length),
    (l2.get ⟨i, h2⟩).user_id = (l.get ⟨i, h⟩).user_id ∧
    (l2.get ⟨i, h2⟩).role = (l.get ⟨i, h⟩).role ∧
    (l2.get ⟨i, h2⟩).first_seen = (l.get ⟨i, h⟩).first_seen

theorem framePreserved_refl (l : List Member) : framePreserved l l :=
  ⟨Nat.le_refl _, fun _ _ _ => ⟨rfl, rfl, rfl⟩⟩

theorem framePreserved_trans {a b c : List Member}
    (h1 : framePreserved a b) (h2 : framePreserved b c) : framePreserved a c := by
  obtain ⟨hl1, hf1⟩ := h1
  obtain ⟨hl2, hf2⟩ := h2
  refine ⟨Nat.le_trans hl1 hl2, ?_⟩
  intro i h hc
  have hb : i < b.length := Nat.lt_of_lt_of_le h hl1
  obtain ⟨e1, e2, e3⟩ := hf1 i h hb
  obtain ⟨f1, f2, f3⟩ := hf2 i hb hc
  exact ⟨f1.trans e1, f2.trans e2, f3.trans e3⟩

theorem upsertMember_frame (st : Store) (uid dn : String) (ts : Int) :
    framePreserved st.members (upsertMember st uid dn ts).members := by
  unfold upsertMember
  split
  · refine ⟨by simp, ?_⟩
    intro i h h2
    simp only [List.get_eq_getElem, List.getElem_map]
    by_cases hc : (st.members[i]).user_id = uid <;> simp [hc]
  · refine ⟨by simp, ?_⟩
    intro i h h2
    simp only [List.get_eq_getElem]
    rw [List.getElem_append_left h]
    exact ⟨rfl, rfl, rfl⟩

theorem sampleStep_frame (sid : Nat) (ts : Int) (st : Store) (o : Occupant) :
    framePreserved st.members (sampleStep sid ts st o).members := by
  unfold sampleStep
  rw [insertPresence_members]
  exact upsertMember_frame st o.userId o.displayName ts

theorem foldl_sampleStep_frame (sid : Nat) (ts : Int) :
    ∀ (occ : List Occupant) (st : Store),
      framePreserved st.members ((occ.foldl (sampleStep sid ts) st)).members := by
  intro occ
  induction occ with
  | nil => intro st; exact framePreserved_refl _
  | cons o rest ih =>
    intro st
    simp only [List.foldl_cons]
    exact framePreserved_trans (sampleStep_frame sid ts st o) (ih (sampleStep sid ts st o))

theorem snapshotBody_frame (st : Store) (ts : Int) (g c : String) (occ : List Occupant) :
    framePreserved st.members (snapshotBody st ts g c occ).members := by
  simp only [snapshotBody]
  exact foldl_sampleStep_frame st.nextSnapshotId ts occ
    { st with snapshots := st.snapshots ++ [⟨st.nextSnapshotId, ts, g, c⟩],
              nextSnapshotId := st.nextSnapshotId + 1 }

theorem foldl_drop_dup (sid : Nat) (ts : Int) (uid dn : String) :
    ∀ (l : List Occupant) (st : Store),
      (st.members.map Member.user_id).Nodup →
      memberWritten st uid dn ts →
      (⟨sid, uid⟩ : PresenceRow) ∈ st.presence →
      (∀ q ∈ l, q.userId = uid → q.displayName = dn) →
      l.foldl (sampleStep sid ts) st
        = (l.filter (fun q => decide (q.userId ≠ uid))).foldl (sampleStep sid ts) st := by
  intro l
  induction l with
  | nil => intro st _ _ _ _; rfl
  | cons h t ih =>
    intro st hnd hw hp hcons
    by_cases hc : h.userId = uid
    · simp only [List.foldl_cons, List.filter_cons]
      rw [sampleStep_identity sid ts st uid dn h hnd hw hp hc (hcons h (by simp) hc)]
      have : (decide (h.userId ≠ uid)) = false := by simp [hc]
      rw [this]
      exact ih st hnd hw hp (fun q hq => hcons q (List.mem_cons_of_mem _ hq))
    · simp only [List.foldl_cons, List.filter_cons]
      have : (decide (h.userId ≠ uid)) = true := by simp [hc]
      rw [this]
      simp only [List.foldl_cons]
      exact ih (sampleStep sid ts st h)
        (sampleStep_userIds_nodup _ _ _ _ hnd)
        (sampleStep_written_pres _ _ _ _ _ _ hw (fun hh => absurd hh hc))
        (sampleStep_pres_mem _ _ _ _ _ hp)
        (fun q hq => hcons q (List.mem_cons_of_mem _ hq))

theorem foldl_dedupByUser (sid : Nat) (ts : Int) :
    ∀ (occ : List Occupant) (st : Store),
      (st.members.map Member.user_id).Nodup →
      (∀ o ∈ occ, ∀ q ∈ occ, o.userId = q.userId → o.displayName = q.displayName) →
      occ.foldl (sampleStep sid ts) st = (dedupByUser occ).foldl (sampleStep sid ts) st := by
  intro occ
  induction occ using dedupByUser.induct with
  | case1 => intro st _ _; rw [dedupByUser]
  | case2 o rest ih =>
    intro st hnd hcons
    rw [dedupByUser]
    simp only [List.foldl_cons]
    have hdrop := foldl_drop_dup sid ts o.userId o.displayName rest (sampleStep sid ts st o)
      (sampleStep_userIds_nodup _ _ _ _ hnd)
      (sampleStep_written sid ts st o)
      ((sampleStep_presence_mem sid ts st o _).mpr (Or.inr rfl))
      (fun q hq hqu => hcons q (List.mem_cons_of_mem _ hq) o (List.mem_cons_self _ _) hqu)
    rw [hdrop]
    exact ih (sampleStep sid ts st o)
      (sampleStep_userIds_nodup _ _ _ _ hnd)
      (fun a ha b hb hab =>
        hcons a (List.mem_cons_of_mem _ (List.mem_of_mem_filter ha))
          b (List.mem_cons_of_mem _ (List.mem_of_mem_filter hb)) hab)

end ElyBot

namespace ElyBot

/-- The unsorted row list of a summary, before the sort at line 214. -/
def summaryRowsUnsorted (guild channel : String) (st : Store) (ymCurrent : Option String)
    (now : Nat × Nat) : List Row :=
  let ym := ymCurrent.getD (formatYM now.1 now.2)
  let ymPrev := lastMonthYM (some ym) now
  let thisMonth := computeAttendance st channel guild ym now
  let lastMonth := computeAttendance st channel guild ymPrev now
  st.members.map
    (mkRow ym ymPrev thisMonth.total lastMonth.total thisMonth.presentMap lastMonth.presentMap)

theorem summaryPayload_rows (guild channel : String) (st : Store) (ymCurrent : Option String)
    (now : Nat × Nat) :
    (summaryPayload guild channel st ymCurrent now).rows
      = (summaryRowsUnsorted guild channel st ymCurrent now).mergeSort rowLE := rfl

theorem mem_rows (guild channel : String) (st : Store) (ymCurrent : Option String)
    (now : Nat × Nat) (r : Row)
    (hr : r ∈ (summaryPayload guild channel st ymCurrent now).rows) :
    ∃ ym ymPrev tThis tLast pThis pLast m, m ∈ st.members ∧
      r = mkRow ym ymPrev tThis tLast pThis pLast m := by
  rw [summaryPayload_rows] at hr
  have hr2 := (List.mergeSort_perm _ rowLE).mem_iff.mp hr
  rcases List.mem_map.mp hr2 with ⟨m, hm, hmk⟩
  exact ⟨_, _, _, _, _, _, m, hm, hmk.symm⟩

theorem rowLE_trans : ∀ a b c : Row, rowLE a b = true → rowLE b c = true → rowLE a c = true := by
  intro a b c hab hbc
  simp only [rowLE, decide_eq_true_eq] at *
  exact le_trans hbc hab

theorem rowLE_total : ∀ a b : Row, (rowLE a b || rowLE b a) = true := by
  intro a b
  simp only [rowLE, Bool.or_eq_true, decide_eq_true_eq]
  exact le_total (pctKey b) (pctKey a)

theorem mkRow_thisMonth (ym ymPrev : String) (tThis tLast : Nat) (pThis pLast : String → Nat)
    (m : Member) :
    (mkRow ym ymPrev tThis tLast pThis pLast m).thisMonth
      = ⟨ym, pThis m.user_id, tThis,
          if tThis ≠ 0 then some ((pThis m.user_id : ℚ) / (tThis : ℚ)) else none⟩ := rfl

theorem mkRow_lastMonth (ym ymPrev : String) (tThis tLast : Nat) (pThis pLast : String → Nat)
    (m : Member) :
    (mkRow ym ymPrev tThis tLast pThis pLast m).lastMonth
      = ⟨ymPrev, pLast m.user_id, tLast,
          if tLast ≠ 0 then some ((pLast m.user_id : ℚ) / (tLast : ℚ)) else none⟩ := rfl

theorem mkRow_flags (ym ymPrev : String) (tThis tLast : Nat) (pThis pLast : String → Nat)
    (m : Member) :
    (mkRow ym ymPrev tThis tLast pThis pLast m).flags
      = ⟨(match (mkRow ym ymPrev tThis tLast pThis pLast m).thisMonth.pct with
            | some q => decide (q < 1/2) | none => false),
          (match (mkRow ym ymPrev tThis tLast pThis pLast m).thisMonth.pct with
            | some q => decide (q < 3/4) | none => false)⟩ := rfl

theorem mkRow_pct_nonneg (ym ymPrev : String) (tThis tLast : Nat) (pThis pLast : String → Nat)
    (m : Member) (q : ℚ)
    (h : (mkRow ym ymPrev tThis tLast pThis pLast m).thisMonth.pct = some q) : 0 ≤ q := by
  rw [mkRow_thisMonth] at h
  simp only at h
  split at h
  · cases h
    positivity
  · cases h

theorem rows_pct_nonneg (guild channel : String) (st : Store) (ymCurrent : Option String)
    (now : Nat × Nat) (r : Row)
    (hr : r ∈ (summaryPayload guild channel st ymCurrent now).rows) (q : ℚ)
    (h : r.thisMonth.pct = some q) : 0 ≤ q := by
  rcases mem_rows guild channel st ymCurrent now r hr with ⟨ym, ymPrev, tT, tL, pT, pL, m, _, rfl⟩
  exact mkRow_pct_nonneg ym ymPrev tT tL pT pL m q h

end ElyBot

namespace ElyBot

theorem mkRow_under50_iff (ym ymPrev : String) (tT tL : Nat) (pT pL : String → Nat)
    (m : Member) :
    (mkRow ym ymPrev tT tL pT pL m).flags.under50 = true ↔
      ∃ q, (mkRow ym ymPrev tT tL pT pL m).thisMonth.pct = some q ∧ q < 1/2 := by
  by_cases h0 : tT = 0 <;> simp [mkRow, h0]

theorem mkRow_under75_iff (ym ymPrev : String) (tT tL : Nat) (pT pL : String → Nat)
    (m : Member) :
    (mkRow ym ymPrev tT tL pT pL m).flags.under75 = true ↔
      ∃ q, (mkRow ym ymPrev tT tL pT pL m).thisMonth.pct = some q ∧ q < 3/4 := by
  by_cases h0 : tT = 0 <;> simp [mkRow, h0]

theorem sampleStep_hasUser (sid : Nat) (ts : Int) (st : Store) (o : Occupant) (uid : String)
    (h : ∃ m ∈ st.members, m.user_id = uid) :
    ∃ m ∈ (sampleStep sid ts st o).members, m.user_id = uid := by
  rcases h with ⟨m, hm, hmu⟩
  unfold sampleStep
  rw [insertPresence_members]
  unfold upsertMember
  split
  · refine ⟨if m.user_id = o.userId then
        { m with display_name := o.displayName, last_seen := ts } else m,
      List.mem_map_of_mem _ hm, ?_⟩
    by_cases hc : m.user_id = o.userId
    · rw [if_pos hc]; exact hmu
    · rw [if_neg hc]; exact hmu
  · exact ⟨m, List.mem_append_left _ hm, hmu⟩

theorem foldl_sampleStep_hasUser_pres (sid : Nat) (ts : Int) :
    ∀ (occ : List Occupant) (st : Store) (uid : String),
      (∃ m ∈ st.members, m.user_id = uid) →
      ∃ m ∈ (occ.foldl (sampleStep sid ts) st).members, m.user_id = uid := by
  intro occ
  induction occ with
  | nil => intro st uid h; exact h
  | cons o rest ih =>
    intro st uid h
    simp only [List.foldl_cons]
    exact ih _ _ (sampleStep_hasUser sid ts st o uid h)

theorem foldl_sampleStep_hasUser (sid : Nat) (ts : Int) :
    ∀ (occ : List Occupant) (st : Store) (o : Occupant), o ∈ occ →
      ∃ m ∈ (occ.foldl (sampleStep sid ts) st).members, m.user_id = o.userId := by
  intro occ
  induction occ with
  | nil => intro st o h; cases h
  | cons a rest ih =>
    intro st o h
    simp only [List.foldl_cons]
    rcases List.mem_cons.mp h with rfl | h
    · apply foldl_sampleStep_hasUser_pres
      rcases sampleStep_written sid ts st o with ⟨m, hm, h1, _, _⟩
      exact ⟨m, hm, h1⟩
    · exact ih _ o h

/-- C1: for every month and every member row of a summary, pct equals
present / total when the month's total is positive, and is null (none)
when the total is zero, for both thisMonth and lastMonth. -/
theorem summary_pct_spec (guild channel : String) (st : Store) (ymCurrent : Option String)
    (now : Nat × Nat) (r : Row)
    (hr : r ∈ (summaryPayload guild channel st ymCurrent now).rows) :
    (0 < r.thisMonth.total →
      r.thisMonth.pct = some ((r.thisMonth.present : ℚ) / (r.thisMonth.total : ℚ))) ∧
    (r.thisMonth.total = 0 → r.thisMonth.pct = none) ∧
    (0 < r.lastMonth.total →
      r.lastMonth.pct = some ((r.lastMonth.present : ℚ) / (r.lastMonth.total : ℚ))) ∧
    (r.lastMonth.total = 0 → r.lastMonth.pct = none) := by
  rcases mem_rows guild channel st ymCurrent now r hr with ⟨ym, ymPrev, tT, tL, pT, pL, m, _, rfl⟩
  refine ⟨?_, ?_, ?_, ?_⟩ <;> intro h
  · have h0 : tT ≠ 0 := by
      rw [show (mkRow ym ymPrev tT tL pT pL m).thisMonth.total = tT from rfl] at h
      omega
    show (if tT ≠ 0 then some ((pT m.user_id : ℚ) / (tT : ℚ)) else none) = _
    rw [if_pos h0]
    rfl
  · have h0 : tT = 0 := by
      rwa [show (mkRow ym ymPrev tT tL pT pL m).thisMonth.total = tT from rfl] at h
    show (if tT ≠ 0 then some ((pT m.user_id : ℚ) / (tT : ℚ)) else none) = none
    rw [if_neg (by omega)]
  · have h0 : tL ≠ 0 := by
      rw [show (mkRow ym ymPrev tT tL pT pL m).lastMonth.total = tL from rfl] at h
      omega
    show (if tL ≠ 0 then some ((pL m.user_id : ℚ) / (tL : ℚ)) else none) = _
    rw [if_pos h0]
    rfl
  · have h0 : tL = 0 := by
      rwa [show (mkRow ym ymPrev tT tL pT pL m).lastMonth.total = tL from rfl] at h
    show (if tL ≠ 0 then some ((pL m.user_id : ℚ) / (tL : ℚ)) else none) = none
    rw [if_neg (by omega)]

/-- C2: a sampling cycle is atomic. When the underlying write fails, the
store is unchanged and the cycle reports the storage failure; when it
succeeds, exactly one Snapshot row is appended, the presence table gains
exactly the rows (newSnapshotId, userId) for the occupants (still without
duplicate keys), and every occupant has a member row. -/
theorem recordSnapshot_atomic (st : Store) (ts : Int) (guild channel : String)
    (occ : List Occupant) (hinv : StoreInv st) :
    sampleVoiceChannel true st ts guild channel occ = (st, some SampleError.storageFailure) ∧
    (sampleVoiceChannel false st ts guild channel occ).2 = none ∧
    ((sampleVoiceChannel false st ts guild channel occ).1).snapshots
      = st.snapshots ++ [⟨st.nextSnapshotId, ts, guild, channel⟩] ∧
    (∀ p : PresenceRow,
      p ∈ ((sampleVoiceChannel false st ts guild channel occ).1).presence ↔
        p ∈ st.presence ∨
          (p.snapshot_id = st.nextSnapshotId ∧ p.user_id ∈ occ.map Occupant.userId)) ∧
    ((sampleVoiceChannel false st ts guild channel occ).1).presence.Nodup ∧
    (∀ o ∈ occ, ∃ m ∈ ((sampleVoiceChannel false st ts guild channel occ).1).members,
      m.user_id = o.userId) := by
  refine ⟨rfl, rfl, snapshotBody_snapshots st ts guild channel occ, ?_, ?_, ?_⟩
  · intro p
    show p ∈ (snapshotBody st ts guild channel occ).presence ↔ _
    rw [snapshotBody_presence_mem]
    constructor
    · rintro (h | ⟨o, ho, rfl⟩)
      · exact Or.inl h
      · exact Or.inr ⟨rfl, List.mem_map_of_mem _ ho⟩
    · rintro (h | ⟨h1, h2⟩)
      · exact Or.inl h
      · rcases List.mem_map.mp h2 with ⟨o, ho, hou⟩
        refine Or.inr ⟨o, ho, ?_⟩
        cases p
        simp_all
  · exact snapshotBody_presence_nodup st ts guild channel occ hinv.2.2.1
  · intro o ho
    show ∃ m ∈ (snapshotBody st ts guild channel occ).members, m.user_id = o.userId
    simp only [snapshotBody]
    exact foldl_sampleStep_hasUser _ _ occ _ o ho

/-- C3: for every member, range and filter, the presence join count never
exceeds the snapshot count, in every store reachable by recordSnapshot
operations from a fresh database. -/
theorem presence_count_le_snapshot_total (st : Store) (h : Reachable st)
    (b : Option (Int × Int)) (channel guild u : String) :
    qPresenceCountInRange st b channel guild u ≤ qTotalSnapshotsInRange st b channel guild :=
  presence_le_total st (reachable_inv st h).2.2.1 b channel guild u

/-- C4: summary rows are sorted descending by the current month's pct with
null treated as lower than every defined value (the comparator coalesces
null to -1), so rows with a null pct come after all rows with a defined
pct. -/
theorem summary_rows_sorted_desc (guild channel : String) (st : Store)
    (ymCurrent : Option String) (now : Nat × Nat) :
    ((summaryPayload guild channel st ymCurrent now).rows).Pairwise
      (fun a b => pctKey b ≤ pctKey a ∧ (a.thisMonth.pct = none → b.thisMonth.pct = none)) := by
  have hs := List.sorted_mergeSort rowLE_trans rowLE_total
    (summaryRowsUnsorted guild channel st ymCurrent now)
  rw [summaryPayload_rows]
  refine List.Pairwise.imp_of_mem ?_ hs
  intro a b ha hb hr
  have hle : pctKey b ≤ pctKey a := by simpa [rowLE] using hr
  refine ⟨hle, ?_⟩
  intro hnone
  cases hpct : b.thisMonth.pct with
  | none => rfl
  | some q =>
    have hq : 0 ≤ q := rows_pct_nonneg guild channel st ymCurrent now b
      (by rw [summaryPayload_rows]; exact hb) q hpct
    have hka : pctKey a = -1 := by simp [pctKey, hnone]
    have hkb : pctKey b = q := by simp [pctKey, hpct]
    rw [hka, hkb] at hle
    linarith

end ElyBot

namespace ElyBot

/-- C5: below50 and below75 are the name lists of the rows passing the
two filters; a row is in the below50 filter iff its pct is defined and
below 1/2, in the below75 filter iff its pct is defined and in [1/2, 3/4),
the two filters are mutually exclusive, and together they cover exactly
the rows with a defined pct below 3/4. -/
theorem summary_threshold_partition (guild channel : String) (st : Store)
    (ymCurrent : Option String) (now : Nat × Nat) :
    (summaryPayload guild channel st ymCurrent now).below50
      = ((summaryPayload guild channel st ymCurrent now).rows.filter
          (fun r => r.flags.under50)).map (fun r => r.name) ∧
    (summaryPayload guild channel st ymCurrent now).below75
      = ((summaryPayload guild channel st ymCurrent now).rows.filter
          (fun r => r.flags.under75 && !r.flags.under50)).map (fun r => r.name) ∧
    ∀ r ∈ (summaryPayload guild channel st ymCurrent now).rows,
      (r.flags.under50 = true ↔ ∃ q, r.thisMonth.pct = some q ∧ q < 1/2) ∧
      ((r.flags.under75 = true ∧ r.flags.under50 = false) ↔
        ∃ q, r.thisMonth.pct = some q ∧ 1/2 ≤ q ∧ q < 3/4) ∧
      ¬(r.flags.under50 = true ∧ r.flags.under75 = true ∧ r.flags.under50 = false) ∧
      ((r.flags.under50 = true ∨ (r.flags.under75 = true ∧ r.flags.under50 = false)) ↔
        ∃ q, r.thisMonth.pct = some q ∧ q < 3/4) := by
  refine ⟨rfl, rfl, ?_⟩
  intro r hr
  rcases mem_rows guild channel st ymCurrent now r hr with ⟨ym, ymPrev, tT, tL, pT, pL, m, _, rfl⟩
  have h50 := mkRow_under50_iff ym ymPrev tT tL pT pL m
  have h75 := mkRow_under75_iff ym ymPrev tT tL pT pL m
  refine ⟨h50, ?_, ?_, ?_⟩
  · constructor
    · rintro ⟨hu75, hu50⟩
      rcases h75.mp hu75 with ⟨q, hq, hq75⟩
      refine ⟨q, hq, ?_, hq75⟩
      by_contra hlt
      push_neg at hlt
      have := h50.mpr ⟨q, hq, hlt⟩
      rw [this] at hu50
      cases hu50
    · rintro ⟨q, hq, hge, hlt⟩
      refine ⟨h75.mpr ⟨q, hq, hlt⟩, ?_⟩
      cases hb : (mkRow ym ymPrev tT tL pT pL m).flags.under50
      · rfl
      · rcases h50.mp hb with ⟨q2, hq2, hq2lt⟩
        rw [hq] at hq2
        injection hq2 with e
        subst e
        linarith
  · rintro ⟨h1, _, h3⟩
    rw [h1] at h3
    cases h3
  · constructor
    · rintro (hu50 | ⟨hu75, _⟩)
      · rcases h50.mp hu50 with ⟨q, hq, hlt⟩
        exact ⟨q, hq, by linarith⟩
      · exact h75.mp hu75
    · rintro ⟨q, hq, hlt⟩
      by_cases hq50 : q < 1/2
      · exact Or.inl (h50.mpr ⟨q, hq, hq50⟩)
      · refine Or.inr ⟨h75.mpr ⟨q, hq, hlt⟩, ?_⟩
        cases hb : (mkRow ym ymPrev tT tL pT pL m).flags.under50
        · rfl
        · rcases h50.mp hb with ⟨q2, hq2, hq2lt⟩
          rw [hq] at hq2
          injection hq2 with e
          subst e
          exact absurd hq2lt hq50

theorem parseYM_month_bounds (s : String) (y m : Nat) (h : parseYM s = some (y, m)) :
    1 ≤ m ∧ m ≤ 12 := by
  unfold parseYM at h
  split at h
  · split at h
    · dsimp only at h
      split at h
      · rename_i hrange
        cases h
        exact hrange
      · simp at h
    · simp at h
  · simp at h

/-- C6: for every string parsing as a valid year-month (year at least 1),
lastMonthYM returns the immediately preceding calendar month, rolling
month 1 of year y over to month 12 of year y-1 and mapping any other
month m to month m-1 of the same year. -/
theorem lastMonthYM_prev_calendar_month (s : String) (y m : Nat) (now : Nat × Nat)
    (hp : parseYM s = some (y, m)) (hy : 1 ≤ y) :
    (m = 1 → lastMonthYM (some s) now = formatYM (y - 1) 12) ∧
    (2 ≤ m → lastMonthYM (some s) now = formatYM y (m - 1)) := by
  obtain ⟨hm1, hm12⟩ := parseYM_month_bounds s y m hp
  simp only [lastMonthYM, hp]
  constructor
  · intro h1
    subst h1
    have e1 : (12 * y + (1 - 1) - 1) / 12 = y - 1 := by omega
    have e2 : (12 * y + (1 - 1) - 1) % 12 + 1 = 12 := by omega
    rw [e1, e2]
  · intro h2
    have e1 : (12 * y + (m - 1) - 1) / 12 = y := by omega
    have e2 : (12 * y + (m - 1) - 1) % 12 + 1 = m - 1 := by omega
    rw [e1, e2]

/-- C7: duplicate occupants within one cycle collapse. The state produced
by a cycle equals the state produced by the occupant list deduplicated by
userId (keeping first occurrences), and each occupant ends up with exactly
one presence row for the cycle's snapshot. -/
theorem recordSnapshot_idempotent_dup (st : Store) (ts : Int) (guild channel : String)
    (occ : List Occupant) (hinv : StoreInv st)
    (hcons : ∀ o ∈ occ, ∀ q ∈ occ, o.userId = q.userId → o.displayName = q.displayName) :
    snapshotBody st ts guild channel occ = snapshotBody st ts guild channel (dedupByUser occ) ∧
    ∀ o ∈ occ, ((snapshotBody st ts guild channel occ).presence.countP
      (fun p => decide (p.snapshot_id = st.nextSnapshotId)
        && decide (p.user_id = o.userId))) = 1 := by
  constructor
  · simp only [snapshotBody]
    exact foldl_dedupByUser _ _ occ _ hinv.2.2.2.2 hcons
  · intro o ho
    have hmem : (⟨st.nextSnapshotId, o.userId⟩ : PresenceRow)
        ∈ (snapshotBody st ts guild channel occ).presence :=
      (snapshotBody_presence_mem st ts guild channel occ _).mpr (Or.inr ⟨o, ho, rfl⟩)
    have hnd := snapshotBody_presence_nodup st ts guild channel occ hinv.2.2.1
    have hc : ((snapshotBody st ts guild channel occ).presence.countP
        (fun p => decide (p.snapshot_id = st.nextSnapshotId)
          && decide (p.user_id = o.userId)))
        = (snapshotBody st ts guild channel occ).presence.count
            ⟨st.nextSnapshotId, o.userId⟩ := by
      rw [List.count_eq_countP]
      apply List.countP_congr
      intro p _
      cases p
      simp [PresenceRow.mk.injEq, and_comm]
    rw [hc]
    exact List.count_eq_one_of_mem hnd hmem

/-- C10: a sampling cycle never changes any existing member's position,
user_id, role or first_seen; member rows are only updated in place
(display_name, last_seen) or appended. In particular a role previously set
to Reserve survives every snapshot. -/
theorem sampling_preserves_role_firstSeen (st : Store) (ts : Int) (guild channel : String)
    (occ : List Occupant) :
    st.members.length ≤ (snapshotBody st ts guild channel occ).members.length ∧
    ∀ (i : Nat) (h : i < st.members.length)
      (h2 : i < (snapshotBody st ts guild channel occ).members.length),
      ((snapshotBody st ts guild channel occ).members.get ⟨i, h2⟩).user_id
          = (st.members.get ⟨i, h⟩).user_id ∧
      ((snapshotBody st ts guild channel occ).members.get ⟨i, h2⟩).role
          = (st.members.get ⟨i, h⟩).role ∧
      ((snapshotBody st ts guild channel occ).members.get ⟨i, h2⟩).first_seen
          = (st.members.get ⟨i, h⟩).first_seen :=
  snapshotBody_frame st ts guild channel occ

end ElyBot

namespace ElyBot

/-- C8 counterexample: a well-formed role update for a memberId that is
not in the members table returns ok true with the store unchanged; there
is no NotFound outcome, contradicting the claim that such a request does
not succeed. -/
theorem setRole_unknown_member_succeeds :
    apiSetRole emptyStore (some (some "ghost", some "Reserve"))
      = (RoleResp.okTrue, emptyStore) ∧ emptyStore.members = [] := by
  constructor
  · decide
  · rfl

/-- C8 (amended): missing or invalid fields are rejected with the 400
error message and leave the store unchanged; a well-formed request always
answers ok true and runs the role UPDATE, which sets the role of every
member row with that user_id and changes nothing when no such member
exists (success, not NotFound). -/
theorem setRole_contract (st : Store) (uid rl bad : String) (hu : uid ≠ "")
    (hrl : rl = "Raider" ∨ rl = "Reserve") (hbad1 : bad ≠ "Raider") (hbad2 : bad ≠ "Reserve") :
    apiSetRole st none
      = (RoleResp.badRequest "Provide userId and role in \x7bRaider, Reserve\x7d", st) ∧
    apiSetRole st (some (none, some rl))
      = (RoleResp.badRequest "Provide userId and role in \x7bRaider, Reserve\x7d", st) ∧
    apiSetRole st (some (some uid, none))
      = (RoleResp.badRequest "Provide userId and role in \x7bRaider, Reserve\x7d", st) ∧
    apiSetRole st (some (some uid, some bad))
      = (RoleResp.badRequest "Provide userId and role in \x7bRaider, Reserve\x7d", st) ∧
    apiSetRole st (some (some "", some rl))
      = (RoleResp.badRequest "Provide userId and role in \x7bRaider, Reserve\x7d", st) ∧
    apiSetRole st (some (some uid, some rl)) = (RoleResp.okTrue, roleUpdate st uid rl) ∧
    ((∀ m ∈ st.members, m.user_id ≠ uid) → roleUpdate st uid rl = st) ∧
    (∀ m ∈ st.members, m.user_id = uid → { m with role := rl } ∈ (roleUpdate st uid rl).members) := by
  have hrlne : rl ≠ "" := by rcases hrl with rfl | rfl <;> decide
  refine ⟨rfl, rfl, rfl, ?_, ?_, ?_, ?_, ?_⟩
  · show (if uid ≠ "" ∧ bad ≠ "" ∧ (bad = "Raider" ∨ bad = "Reserve")
        then (RoleResp.okTrue, roleUpdate st uid bad)
        else (RoleResp.badRequest "Provide userId and role in \x7bRaider, Reserve\x7d", st)) = _
    rw [if_neg]
    rintro ⟨_, _, h | h⟩
    · exact hbad1 h
    · exact hbad2 h
  · show (if ("" : String) ≠ "" ∧ rl ≠ "" ∧ (rl = "Raider" ∨ rl = "Reserve")
        then (RoleResp.okTrue, roleUpdate st "" rl)
        else (RoleResp.badRequest "Provide userId and role in \x7bRaider, Reserve\x7d", st)) = _
    rw [if_neg]
    rintro ⟨h, _⟩
    exact h rfl
  · show (if uid ≠ "" ∧ rl ≠ "" ∧ (rl = "Raider" ∨ rl = "Reserve")
        then (RoleResp.okTrue, roleUpdate st uid rl)
        else (RoleResp.badRequest "Provide userId and role in \x7bRaider, Reserve\x7d", st)) = _
    rw [if_pos ⟨hu, hrlne, hrl⟩]
  · intro hno
    show ({ st with members := st.members.map (fun m =>
        if m.user_id = uid then { m with role := rl } else m) } : Store) = st
    have hid : ∀ m ∈ st.members,
        (if m.user_id = uid then { m with role := rl } else m) = m :=
      fun m hm => if_neg (hno m hm)
    rw [List.map_congr_left hid]
    simp
  · intro m hm hmu
    have he : (if m.user_id = uid then { m with role := rl } else m) = { m with role := rl } :=
      if_pos hmu
    rw [← he]
    exact List.mem_map_of_mem _ hm

/-- C9 counterexample: with an empty store and October 2025 as the current
month, the summary for the malformed month value bogus is not the summary
for an absent month parameter (the malformed value is echoed as ym and
parsed as an Invalid Date, not treated as absent). -/
theorem apiSummary_malformed_month_ne_absent :
    apiSummary "g" "c" emptyStore (some "bogus") (2025, 10)
      ≠ apiSummary "g" "c" emptyStore none (2025, 10) := by decide

/-- C9 (amended): only an absent, empty or whitespace-only month parameter
is treated as the current month; any other value, malformed or not, is
passed through trimmed to the summary computation and echoed as the ym
field, so the response differs from the absent-parameter response whenever
the trimmed value is not the current month string. -/
theorem apiSummary_malformed_month_passthrough (guild channel : String) (st : Store)
    (month : String) (now : Nat × Nat) (h : jsTrim month ≠ "") :
    apiSummary guild channel st (some month) now
      = summaryPayload guild channel st (some (jsTrim month)) now ∧
    (apiSummary guild channel st (some month) now).ym = jsTrim month ∧
    (apiSummary guild channel st none now).ym = formatYM now.1 now.2 ∧
    (jsTrim month ≠ formatYM now.1 now.2 →
      apiSummary guild channel st (some month) now
        ≠ apiSummary guild channel st none now) := by
  have hnorm : normalizeMonthParam (some month) = some (jsTrim month) := by
    unfold normalizeMonthParam
    simp only [Option.getD]
    rw [if_neg h]
  have h1 : apiSummary guild channel st (some month) now
      = summaryPayload guild channel st (some (jsTrim month)) now := by
    unfold apiSummary
    rw [hnorm]
  have h2 : (summaryPayload guild channel st (some (jsTrim month)) now).ym = jsTrim month := rfl
  have h3 : (apiSummary guild channel st none now).ym = formatYM now.1 now.2 := by
    unfold apiSummary normalizeMonthParam
    simp only [Option.getD]
    rw [if_pos (show jsTrim "" = "" by decide)]
    rfl
  refine ⟨h1, by rw [h1]; exact h2, h3, ?_⟩
  intro hne heq
  apply hne
  have e1 := congrArg Payload.ym heq
  rw [h1] at e1
  rw [h2] at e1
  rw [h3] at e1
  exact e1

end ElyBot

namespace ElyBot

/-- Witness for C1 at a concrete store with one member and no snapshots:
the month total is 0 and the row's pct is null. -/
theorem summary_pct_spec_witness :
    (Row.mk "u1" "Alice" "Raider" ⟨"1970-03", 0, 0, none⟩ ⟨"1970-02", 0, 0, none⟩
      ⟨false, false⟩).thisMonth.pct = none :=
  (summary_pct_spec "g" "c" ⟨[⟨"u1", "Alice", "Raider", 0, 0⟩], [], [], 0⟩ (some "1970-03")
    (2025, 1)
    (Row.mk "u1" "Alice" "Raider" ⟨"1970-03", 0, 0, none⟩ ⟨"1970-02", 0, 0, none⟩
      ⟨false, false⟩)
    (by
      rw [summaryPayload_rows]
      exact (List.mergeSort_perm _ rowLE).mem_iff.mpr (by decide))).2.1 rfl

/-- Witness for C2 at a concrete failing cycle on the empty store: the
store is unchanged and the failure is reported. -/
theorem recordSnapshot_atomic_witness :
    sampleVoiceChannel true emptyStore 5 "g" "c" [⟨"u1", "Alice"⟩]
      = (emptyStore, some SampleError.storageFailure) :=
  (recordSnapshot_atomic emptyStore 5 "g" "c" [⟨"u1", "Alice"⟩] (by decide)).1

/-- Witness for C3 at the store reached by one snapshot with one occupant:
present count is at most the total in a January 1970 range. -/
theorem presence_count_le_snapshot_total_witness :
    qPresenceCountInRange (snapshotBody emptyStore 100 "g" "c" [⟨"u1", "Alice"⟩])
        (some (0, 2678399999)) "c" "g" "u1"
      ≤ qTotalSnapshotsInRange (snapshotBody emptyStore 100 "g" "c" [⟨"u1", "Alice"⟩])
        (some (0, 2678399999)) "c" "g" :=
  presence_count_le_snapshot_total (snapshotBody emptyStore 100 "g" "c" [⟨"u1", "Alice"⟩])
    (Reachable.step emptyStore 100 "g" "c" [⟨"u1", "Alice"⟩] Reachable.init)
    (some (0, 2678399999)) "c" "g" "u1"

/-- Witness for C4 at a concrete summary. -/
theorem summary_rows_sorted_desc_witness :
    ((summaryPayload "g" "c" ⟨[⟨"u1", "Alice", "Raider", 0, 0⟩], [], [], 0⟩ (some "1970-03")
      (2025, 1)).rows).Pairwise
        (fun a b => pctKey b ≤ pctKey a ∧ (a.thisMonth.pct = none → b.thisMonth.pct = none)) :=
  summary_rows_sorted_desc "g" "c" ⟨[⟨"u1", "Alice", "Raider", 0, 0⟩], [], [], 0⟩
    (some "1970-03") (2025, 1)

/-- Witness for C5 at a concrete summary: the below50 list is the name
projection of the rows passing the under50 filter. -/
theorem summary_threshold_partition_witness :
    (summaryPayload "g" "c" ⟨[⟨"u1", "Alice", "Raider", 0, 0⟩], [], [], 0⟩ (some "1970-03")
      (2025, 1)).below50
      = ((summaryPayload "g" "c" ⟨[⟨"u1", "Alice", "Raider", 0, 0⟩], [], [], 0⟩
          (some "1970-03") (2025, 1)).rows.filter
            (fun r => r.flags.under50)).map (fun r => r.name) :=
  (summary_threshold_partition "g" "c" ⟨[⟨"u1", "Alice", "Raider", 0, 0⟩], [], [], 0⟩
    (some "1970-03") (2025, 1)).1

/-- Witness for C6: the two example evaluations from the spec. -/
theorem lastMonthYM_prev_calendar_month_witness :
    lastMonthYM (some "2024-01") (2025, 1) = "2023-12"
      ∧ lastMonthYM (some "2024-07") (2025, 1) = "2024-06" := by
  constructor
  · have h := (lastMonthYM_prev_calendar_month "2024-01" 2024 1 (2025, 1)
      (by decide) (by decide)).1 rfl
    rw [h]
    decide
  · have h := (lastMonthYM_prev_calendar_month "2024-07" 2024 7 (2025, 1)
      (by decide) (by decide)).2 (by decide)
    rw [h]
    decide

/-- Witness for C7: a cycle with a duplicated occupant produces the same
store as the cycle with the deduplicated list. -/
theorem recordSnapshot_idempotent_dup_witness :
    snapshotBody emptyStore 0 "g" "c" [⟨"u1", "A"⟩, ⟨"u1", "A"⟩]
      = snapshotBody emptyStore 0 "g" "c" (dedupByUser [⟨"u1", "A"⟩, ⟨"u1", "A"⟩]) :=
  (recordSnapshot_idempotent_dup emptyStore 0 "g" "c" [⟨"u1", "A"⟩, ⟨"u1", "A"⟩]
    (by decide) (by decide)).1

/-- Witness for C8 (amended contract): a valid role update for an
existing member answers ok true and runs the UPDATE. -/
theorem setRole_contract_witness :
    apiSetRole ⟨[⟨"a", "A", "Raider", 0, 0⟩], [], [], 0⟩ (some (some "a", some "Reserve"))
      = (RoleResp.okTrue, roleUpdate ⟨[⟨"a", "A", "Raider", 0, 0⟩], [], [], 0⟩ "a" "Reserve") :=
  (setRole_contract ⟨[⟨"a", "A", "Raider", 0, 0⟩], [], [], 0⟩ "a" "Reserve" "Scout"
    (by decide) (Or.inr rfl) (by decide) (by decide)).2.2.2.2.2.1

/-- Witness for C9 (amended): the malformed month value bogus is echoed
as the ym of the response. -/
theorem apiSummary_malformed_month_passthrough_witness :
    (apiSummary "g" "c" emptyStore (some "bogus") (2025, 10)).ym = "bogus" := by
  have h := (apiSummary_malformed_month_passthrough "g" "c" emptyStore "bogus" (2025, 10)
    (by decide)).2.1
  rw [h]
  decide

/-- Witness for C10 at a concrete store and cycle: the member table only
grows. -/
theorem sampling_preserves_role_firstSeen_witness :
    (⟨[⟨"u1", "Alice", "Raider", 0, 0⟩], [], [], 0⟩ : Store).members.length
      ≤ (snapshotBody ⟨[⟨"u1", "Alice", "Raider", 0, 0⟩], [], [], 0⟩ 5 "g" "c"
          [⟨"u1", "NewName"⟩]).members.length :=
  (sampling_preserves_role_firstSeen ⟨[⟨"u1", "Alice", "Raider", 0, 0⟩], [], [], 0⟩ 5 "g" "c"
    [⟨"u1", "NewName"⟩]).1

end ElyBot
